import Mathlib

/-!
# gdrive-manager: a verification development

A shallow embedding of `gdrive-manager.go` and theorems about it.

Conventions of the embedding.

* A Go `string` is a Lean `String`, a `[]byte` is a `List Nat` whose elements are below 256.
* A Go `error` result is an `Option String`: `none` is `nil`, `some msg` is an error whose
  text is `msg`.
* Everything the program obtains from outside itself (the random source, the file system, the
  remote Drive service, the table of MIME types) is a field of a `World` record, so a theorem
  quantifies over all behaviours of the outside.
* The effects a function has on the outside are returned as a list of `Effect`s, in program
  order.  Calls to `log.Print*` and `fmt.Print*` (standard output) only report progress, never
  change control flow, and are left out of the effect lists.
* `log.Fatalf`, a run-time panic and a wait that never ends are the `fatal`, `panic` and `hang`
  constructors of `Outcome`.
-/

namespace GDrive

/-! ## Outcomes and effects -/

/-- How a call ends: it returns a value, the process is ended by `log.Fatalf`, the goroutine
panics, or the call never returns. -/
inductive Outcome (α : Type) where
  | ret (a : α)
  | fatal (msg : String)
  | panic (msg : String)
  | hang
  deriving DecidableEq, Repr

deriving instance DecidableEq for Except

/-- A `drive.File` as far as the program reads or writes it. -/
structure File where
  Id : String
  Name : String
  MimeType : String
  deriving DecidableEq, Repr

/-- The arguments of one `Files.List()...Do()` call. -/
structure ListCall where
  query : String
  pageSize : Int
  pageToken : String
  deriving DecidableEq, Repr

/-- The observable effects of the program, recorded in program order. -/
inductive Effect where
  /-- The call `http.Error(w, msg, code)`. -/
  | httpError (msg : String) (code : Nat)
  /-- The call `fmt.Fprintf(w, body)` on the response writer. -/
  | write (body : String)
  /-- The call `w.(http.Flusher).Flush()`. -/
  | flush
  /-- The channel send `ch <- v`. -/
  | send (v : String)
  /-- One `Files.List()...Do()` request. -/
  | filesList (call : ListCall)
  /-- The request `Files.Get(fileId).Download()`. -/
  | filesGet (fileId : String)
  /-- The call `os.WriteFile(name, data, 0644)`. -/
  | writeFile (name : String) (data : List Nat)
  /-- The call `os.Open(path)`. -/
  | osOpen (path : String)
  /-- The request `Files.Create(driveFile).Media(file)...Do()`. -/
  | filesCreate (driveFile : File) (path : String)
  deriving DecidableEq, Repr

/-- The values sent on the channel, in order. -/
def Effect.sent : List Effect → List String
  | [] => []
  | Effect.send v :: es => v :: Effect.sent es
  | _ :: es => Effect.sent es

/-- The status code of the HTTP response an effect list produces: the code of the first
`http.Error`, or 200 when the body is written without one; `none` when nothing is written. -/
def Effect.status : List Effect → Option Nat
  | [] => none
  | Effect.httpError _ code :: _ => some code
  | Effect.write _ :: _ => some 200
  | _ :: es => Effect.status es

/-! ## `encoding/base64`, URL alphabet with padding

`base64.URLEncoding` of the Go standard library (RFC 4648, section 5), on byte lists. -/

/-- The alphabet `encodeURL` of `encoding/base64`. -/
def encodeURL : List Char :=
  "ABCDEFGHIJKLMNOPQRSTUVWXYZabcdefghijklmnopqrstuvwxyz0123456789-_".toList

/-- The lookup `enc.encode[i]`. -/
def encSym (i : Nat) : Char := encodeURL.getD i 'A'

/-- The padding character `StdPadding`. -/
def padChar : Char := '='

/-- Model of `Encoding.Encode` for the URL alphabet: three bytes become four symbols through the
24-bit value `b0<<16 | b1<<8 | b2`; a remainder of one or two bytes is padded with `=`. -/
def base64Encode : List Nat → List Char
  | b0 :: b1 :: b2 :: rest =>
    let val := b0 * 65536 + b1 * 256 + b2
    encSym (val / 262144 % 64) :: encSym (val / 4096 % 64) :: encSym (val / 64 % 64)
      :: encSym (val % 64) :: base64Encode rest
  | [b0, b1] =>
    let val := b0 * 65536 + b1 * 256
    [encSym (val / 262144 % 64), encSym (val / 4096 % 64), encSym (val / 64 % 64), padChar]
  | [b0] =>
    let val := b0 * 65536
    [encSym (val / 262144 % 64), encSym (val / 4096 % 64), padChar, padChar]
  | [] => []

/-- Model of `base64.URLEncoding.EncodeToString`. -/
def EncodeToString (src : List Nat) : String := String.mk (base64Encode src)

/-- The inverse table `enc.decodeMap`: the position of a symbol in the alphabet. -/
def decSym (c : Char) : Option Nat :=
  let i := encodeURL.indexOf c
  if i < 64 then some i else none

/-- Model of `Encoding.Decode` for the URL alphabet on input without line breaks: four symbols
become three bytes; `=` may only close the last quantum, which then holds one or two bytes. -/
def base64Decode : List Char → Option (List Nat)
  | [] => some []
  | c0 :: c1 :: c2 :: c3 :: rest =>
    if c3 = padChar then
      if rest ≠ [] then none
      else if c2 = padChar then
        match decSym c0, decSym c1 with
        | some i0, some i1 =>
          let val := (i0 * 64 + i1) * 4096
          some [val / 65536 % 256]
        | _, _ => none
      else
        match decSym c0, decSym c1, decSym c2 with
        | some i0, some i1, some i2 =>
          let val := ((i0 * 64 + i1) * 64 + i2) * 64
          some [val / 65536 % 256, val / 256 % 256]
        | _, _, _ => none
    else
      match decSym c0, decSym c1, decSym c2, decSym c3, base64Decode rest with
      | some i0, some i1, some i2, some i3, some bs =>
        let val := ((i0 * 64 + i1) * 64 + i2) * 64 + i3
        some (val / 65536 % 256 :: val / 256 % 256 :: val % 256 :: bs)
      | _, _, _, _, _ => none
  | _ => none

/-- Model of `base64.URLEncoding.DecodeString`. -/
def DecodeString (s : String) : Option (List Nat) := base64Decode s.toList

/-- The characters a URL-safe base64 text may hold: letters, digits, `-`, `_` and `=`. -/
def urlSafeChar (c : Char) : Bool :=
  ('A' ≤ c && c ≤ 'Z') || ('a' ≤ c && c ≤ 'z') || ('0' ≤ c && c ≤ '9')
    || c == '-' || c == '_' || c == '='

/-! ## The OAuth state and the callback listener -/

/-- Embedding of `generateStateOauthCookie`: `rand` is the content of the 16-byte buffer `b` after
`rand.Read(b)`. -/
def generateStateOauthCookie (rand : List Nat) : String :=
  let b := rand
  let state := EncodeToString b
  state

/-- The parsed form of an `http.Request`: its key/value pairs in the order of precedence of
`Request.FormValue`. -/
structure Request where
  Form : List (String × String)
  deriving DecidableEq, Repr

/-- Model of `Request.FormValue`: the first value of the key, the empty string when there is none.
-/
def Request.FormValue (r : Request) (key : String) : String :=
  match r.Form.find? (fun kv => kv.1 == key) with
  | some kv => kv.2
  | none => ""

/-- The handler returned by `oauthGoogleCallback(ch, oauthState)`, run on the request `r`:
the effects on the response writer and on the channel `ch`.  The response writer of the
`net/http` server implements `http.Flusher`, so the type assertion before `Flush` succeeds. -/
def oauthGoogleCallback (oauthState : String) (r : Request) : List Effect :=
  if r.FormValue "state" != oauthState then
    [Effect.httpError "Invalid oauth state" 500]
  else
    let code := r.FormValue "code"
    if code != "" then
      [Effect.write "<h1>Successful authentication!</h1>", Effect.flush, Effect.send code]
    else
      [Effect.httpError "No code has been received!" 500]

/-! ## The `flag` package

A model of the part of the standard `flag` package the program uses: flag sets with string and
boolean flags, `Parse` with `ContinueOnError`, and `Visit`.  Strings are scanned by character;
the characters the parser looks for (`-`, `=`) are ASCII, so this agrees with scanning bytes. -/

/-- A defined flag: its name, the text `Value.String()` of its current value, and whether it
is a boolean flag. -/
structure Flag where
  Name : String
  Value : String
  isBool : Bool
  deriving DecidableEq, Repr

/-- A `flag.FlagSet`: `formal` are the defined flags, `actual` the names of the flags that were
set, kept in lexical order (the order in which `Visit` calls its argument). -/
structure FlagSet where
  name : String
  formal : List Flag
  actual : List String
  deriving DecidableEq, Repr

/-- The errors of `FlagSet.Parse`. -/
inductive FlagError where
  | badFlag (s : String)
  | help
  | notDefined (name : String)
  | needsArgument (name : String)
  | invalidBool (value name : String)
  deriving DecidableEq, Repr

/-- Model of `flag.NewFlagSet(name, flag.ContinueOnError)`. -/
def NewFlagSet (name : String) : FlagSet := ⟨name, [], []⟩

/-- Model of `FlagSet.Name`. -/
def FlagSet.Name (fs : FlagSet) : String := fs.name

/-- Model of `FlagSet.StringVar(p, name, value, usage)`: the variable `p` is read back with
`FlagSet.stringValue`. -/
def FlagSet.StringVar (fs : FlagSet) (name value : String) : FlagSet :=
  { fs with formal := fs.formal ++ [⟨name, value, false⟩] }

/-- Model of `strconv.FormatBool`. -/
def FormatBool (b : Bool) : String := if b then "true" else "false"

/-- Model of `FlagSet.BoolVar(p, name, value, usage)`. -/
def FlagSet.BoolVar (fs : FlagSet) (name : String) (value : Bool) : FlagSet :=
  { fs with formal := fs.formal ++ [⟨name, FormatBool value, true⟩] }

/-- Model of `FlagSet.Lookup`: the defined flag of that name. -/
def FlagSet.Lookup (fs : FlagSet) (name : String) : Option Flag :=
  fs.formal.find? (fun f => f.Name == name)

/-- The current value of the variable bound to the flag `name` by `StringVar`. -/
def FlagSet.stringValue (fs : FlagSet) (name : String) : String :=
  match fs.Lookup name with
  | some f => f.Value
  | none => ""

/-- The effect of `flag.Value.Set(value)` on the flag `name`. -/
def FlagSet.assign (fs : FlagSet) (name value : String) : FlagSet :=
  { fs with formal := fs.formal.map (fun f => if f.Name == name then { f with Value := value } else f) }

/-- The order `<` of Go on strings, by character: byte order on UTF-8 text is the order of the
code points. -/
def lexLt : List Char → List Char → Bool
  | [], [] => false
  | [], _ :: _ => true
  | _ :: _, [] => false
  | a :: as, b :: bs =>
    if a.toNat < b.toNat then true else if a.toNat == b.toNat then lexLt as bs else false

/-- Insertion of a name into a list of names in lexical order, without repetition. -/
def insertName (n : String) : List String → List String
  | [] => [n]
  | m :: ms =>
    if n == m then m :: ms
    else if lexLt n.toList m.toList then n :: m :: ms
    else m :: insertName n ms

/-- The statement `f.actual[name] = flag`. -/
def FlagSet.markSet (fs : FlagSet) (name : String) : FlagSet :=
  { fs with actual := insertName name fs.actual }

/-- Model of `FlagSet.Visit(fn)`: calls `fn` on the flags that have been set, in lexical order; the
state `σ` stands for the variables the closure `fn` captures. -/
def FlagSet.Visit {σ : Type} (fs : FlagSet) (fn : Flag → σ → σ) (init : σ) : σ :=
  (fs.actual.filterMap fs.Lookup).foldl (fun s f => fn f s) init

/-- Model of `strconv.ParseBool`. -/
def ParseBool (str : String) : Option Bool :=
  if str ∈ ["1", "t", "T", "true", "TRUE", "True"] then some true
  else if str ∈ ["0", "f", "F", "false", "FALSE", "False"] then some false
  else none

/-- The search for `=` in a flag name: the text before the first `=` and, if there is one,
the text after it. -/
def cutAtEq : List Char → List Char × Option (List Char)
  | [] => ([], none)
  | c :: cs => if c == '=' then ([], some cs) else ((c :: (cutAtEq cs).1), (cutAtEq cs).2)

/-- What one call of `parseOne` gives: the results `seen` and `err`, and the flag set and
remaining arguments it leaves. -/
structure ParseStep where
  seen : Bool
  err : Option FlagError
  fs : FlagSet
  args : List String
  deriving DecidableEq, Repr

/-- Model of `FlagSet.parseOne`. -/
def parseOne (fs : FlagSet) (args : List String) : ParseStep :=
  match args with
  | [] => ⟨false, none, fs, []⟩
  | s :: rest =>
    let cs := s.toList
    if cs.length < 2 || cs.head? != some '-' then ⟨false, none, fs, s :: rest⟩
    else
      let numMinuses := if cs.get? 1 == some '-' then 2 else 1
      if numMinuses == 2 && cs.length == 2 then ⟨false, none, fs, rest⟩
      else
        let name := cs.drop numMinuses
        if name.isEmpty || name.head? == some '-' || name.head? == some '=' then
          ⟨false, some (FlagError.badFlag s), fs, s :: rest⟩
        else
          let cut := cutAtEq (name.drop 1)
          let name := String.mk (name.take 1 ++ cut.1)
          match fs.Lookup name with
          | none =>
            if name == "help" || name == "h" then ⟨false, some FlagError.help, fs, rest⟩
            else ⟨false, some (FlagError.notDefined name), fs, rest⟩
          | some flag =>
            if flag.isBool then
              match cut.2 with
              | some value =>
                match ParseBool (String.mk value) with
                | some b => ⟨true, none, (fs.assign name (FormatBool b)).markSet name, rest⟩
                | none => ⟨false, some (FlagError.invalidBool (String.mk value) name), fs, rest⟩
              | none => ⟨true, none, (fs.assign name "true").markSet name, rest⟩
            else
              match cut.2, rest with
              | some value, _ => ⟨true, none, (fs.assign name (String.mk value)).markSet name, rest⟩
              | none, value :: rest1 => ⟨true, none, (fs.assign name value).markSet name, rest1⟩
              | none, [] => ⟨false, some (FlagError.needsArgument name), fs, rest⟩

/-- The loop of `FlagSet.Parse` with `ContinueOnError`; `fuel` bounds the number of rounds. -/
def parseLoop : Nat → FlagSet → List String → Outcome (Option FlagError × FlagSet)
  | 0, _, _ => Outcome.hang
  | fuel + 1, fs, args =>
    let step := parseOne fs args
    if step.seen then parseLoop fuel step.fs step.args
    else Outcome.ret (step.err, step.fs)

/-- Model of `FlagSet.Parse(arguments)`: the error returned and the flag set afterwards.  Every
round but the last consumes an argument, so `arguments.length + 1` rounds are enough. -/
def FlagSet.Parse (fs : FlagSet) (arguments : List String) : Outcome (Option FlagError × FlagSet) :=
  parseLoop (arguments.length + 1) fs arguments

/-! ## The outside world -/

/-- A `drive.FileList` as far as the program reads it. -/
structure FileList where
  Files : List File
  NextPageToken : String
  deriving DecidableEq, Repr

/-- The `http.Response` of a download: its `Content-Type` header and what `io.ReadAll` gives
for its body. -/
structure Response where
  contentType : String
  body : Except String (List Nat)

/-- An `oauth2.Token`. -/
structure Token where
  AccessToken : String
  TokenType : String
  RefreshToken : String
  Expiry : String
  deriving DecidableEq, Repr

/-- The `http.Client` returned by `config.Client(ctx, token)`: it is determined by the token. -/
structure Client where
  token : Token
  deriving DecidableEq, Repr

/-- Everything the program obtains from outside itself.  A call that may fail gives an
`Except` (or an `Option String` error when it gives nothing else). -/
structure World where
  /-- The 16 bytes `rand.Read` puts into the buffer. -/
  rand : List Nat
  /-- The requests that reach `/auth/google/callback`, in the order they are served. -/
  callbacks : List Request
  /-- The call `config.Exchange(ctx, code)`. -/
  Exchange : String → Except String Token
  /-- The call `os.Open(file)` of `tokenFromFile` followed by reading the file. -/
  readFile : String → Except String (List Nat)
  /-- The call `json.NewDecoder(f).Decode(token)`. -/
  Decode : List Nat → Except String Token
  /-- The call `os.OpenFile(path, O_RDWR|O_CREATE|O_TRUNC, 0600)`: its error. -/
  OpenFile : String → Option String
  /-- The call `json.NewEncoder(f).Encode(token)` on the file at `path`: its error. -/
  Encode : String → Token → Option String
  /-- The response of the Drive service to a list request, given the list requests made before. -/
  filesList : List ListCall → ListCall → Except String FileList
  /-- The response of the Drive service to `Files.Get(fileId).Download()`. -/
  filesGet : String → Except String Response
  /-- The function `mime.ExtensionsByType`. -/
  ExtensionsByType : String → Except String (List String)
  /-- The function `mime.TypeByExtension`. -/
  TypeByExtension : String → String
  /-- The call `os.WriteFile(name, data, 0644)`: its error. -/
  WriteFile : String → List Nat → Option String
  /-- The function `filepath.Abs`, which asks the system for the working directory. -/
  Abs : String → Except String String
  /-- The call `os.Open(path)` of the upload: its error. -/
  Open : String → Option String
  /-- The response of the Drive service to `Files.Create(driveFile).Media(file)...Do()`. -/
  filesCreate : File → String → Except String File

/-- What a command gives: its effects and how it ends; a command that returns gives its
`error` result. -/
abbrev Res := List Effect × Outcome (Option String)

/-! ## `path/filepath` on a Unix system -/

/-- The loop of `filepath.Ext`, from the last character backwards: `rev` is what is still to
be scanned (reversed), `acc` what was passed. -/
def Ext.scan : List Char → List Char → String
  | [], _ => ""
  | c :: rev, acc =>
    if c == '/' then ""
    else if c == '.' then String.mk (c :: acc)
    else Ext.scan rev (c :: acc)

/-- Model of `filepath.Ext`: the suffix of the final element of `path` from its last dot on, or the
empty string when that element has no dot. -/
def Ext (path : String) : String := Ext.scan path.toList.reverse []

/-- Model of `filepath.Base`: the last element of `path`, trailing slashes removed. -/
def Base (path : String) : String :=
  if path == "" then "."
  else
    let stripped := path.toList.reverse.dropWhile (fun c => c == '/')
    let last := (stripped.takeWhile (fun c => c != '/')).reverse
    if last.isEmpty then "/" else String.mk last

/-! ## Token cache and authorization flow -/

/-- Sequencing of calls: the second runs only when the first returns. -/
def Outcome.bind {α β : Type} (x : Outcome α) (f : α → Outcome β) : Outcome β :=
  match x with
  | Outcome.ret a => f a
  | Outcome.fatal msg => Outcome.fatal msg
  | Outcome.panic msg => Outcome.panic msg
  | Outcome.hang => Outcome.hang

/-- Embedding of `tokenFromFile`. -/
def tokenFromFile (w : World) (file : String) : Except String Token :=
  match w.readFile file with
  | Except.error err => Except.error err
  | Except.ok f => w.Decode f

/-- Embedding of `saveToken`: the error of `os.OpenFile` ends the process; the result of `Encode`
is not looked at. -/
def saveToken (w : World) (path : String) (token : Token) : Outcome Unit :=
  match w.OpenFile path with
  | some err => Outcome.fatal ("Unable to cache oauth token: " ++ err)
  | none =>
    let _ := w.Encode path token
    Outcome.ret ()

/-- The value the receive `<-ch` of `getTokenFromWeb` gets: the first value a handler sends. -/
def receive (oauthState : String) : List Request → Option String
  | [] => none
  | r :: rs =>
    match Effect.sent (oauthGoogleCallback oauthState r) with
    | code :: _ => some code
    | [] => receive oauthState rs

/-- Embedding of `getTokenFromWeb`: the local server serves the callbacks of the world until one
delivers a code; without a delivery the receive never returns. -/
def getTokenFromWeb (w : World) : Outcome Token :=
  let oauthState := generateStateOauthCookie w.rand
  match receive oauthState w.callbacks with
  | none => Outcome.hang
  | some code =>
    match w.Exchange code with
    | Except.error err => Outcome.fatal ("Unable to retrieve token from web " ++ err)
    | Except.ok token => Outcome.ret token

/-- Embedding of `getClient`. -/
def getClient (w : World) : Outcome Client :=
  let tokenFile := "token.json"
  match tokenFromFile w tokenFile with
  | Except.ok token => Outcome.ret ⟨token⟩
  | Except.error _ =>
    (getTokenFromWeb w).bind fun token =>
    (saveToken w tokenFile token).bind fun _ =>
    Outcome.ret ⟨token⟩

/-! ## The commands -/

/-- Embedding of `CommandFlag.isFlagPassed`: the captured variable `found` is the state of the
visit. -/
def CommandFlag.isFlagPassed (fs : FlagSet) (name : String) : Bool :=
  fs.Visit (fun f found => if f.Name == name then true else found) false

/-- Embedding of `CommandFlag.isStringFlagSet`: the captured variable `isSet` is the state of the
visit. The closure does not read the parameter `name`. -/
def CommandFlag.isStringFlagSet (fs : FlagSet) (_name : String) : Bool :=
  fs.Visit (fun f isSet => if f.Value.length > 0 then true else isSet) false

/-- Embedding of `ListCommand`: its flag set; the service is part of the world. -/
structure ListCommand where
  fs : FlagSet
  deriving DecidableEq, Repr

/-- Embedding of `NewListCommand`. -/
def NewListCommand : ListCommand :=
  ⟨(((NewFlagSet "list").BoolVar "files" false).BoolVar "folders" false).BoolVar "all" false⟩

/-- Embedding of `ListCommand.Name`. -/
def ListCommand.Name (l : ListCommand) : String := l.fs.Name

/-- Embedding of `ListCommand.Init`: the error of `Parse` and the command afterwards. -/
def ListCommand.Init (l : ListCommand) (args : List String) :
    Outcome (Option FlagError × ListCommand) :=
  (l.fs.Parse args).bind fun r => Outcome.ret (r.1, ⟨r.2⟩)

/-- The loop of `ListCommand.GetFileList`.  `resp` is the last response (`none` is `nil`),
`files` the files gathered, `hist` the list requests made so far; `fuel` bounds the number of
rounds.  The result is the requests made and the pair `(files, err)` returned. -/
def ListCommand.GetFileList.loop (w : World) (query : String) (pageSize : Int) :
    Nat → Option FileList → List File → List ListCall →
      List ListCall × Outcome (Except String (List File))
  | 0, _, _, hist => (hist, Outcome.hang)
  | fuel + 1, resp, files, hist =>
    let next : Option String :=
      match resp with
      | some r => if r.NextPageToken == "" then none else some r.NextPageToken
      | none => some ""
    match next with
    | none => (hist, Outcome.ret (Except.ok files))
    | some pageToken =>
      let call : ListCall := ⟨query, pageSize, pageToken⟩
      match w.filesList hist call with
      | Except.error err => (hist ++ [call], Outcome.ret (Except.error err))
      | Except.ok r =>
        ListCommand.GetFileList.loop w query pageSize fuel (some r) (files ++ r.Files)
          (hist ++ [call])

/-- Embedding of `ListCommand.GetFileList`: the list requests made, in order, and the result. -/
def ListCommand.GetFileList (w : World) (fuel : Nat) (query : String) (pageSize : Int) :
    List ListCall × Outcome (Except String (List File)) :=
  ListCommand.GetFileList.loop w query pageSize fuel none [] []

/-- The end of `ListCommand.Run` after a call of `GetFileList`. -/
def ListCommand.finish (r : List ListCall × Outcome (Except String (List File))) : Res :=
  (r.1.map Effect.filesList,
    r.2.bind fun res =>
      match res with
      | Except.error err => Outcome.ret (some err)
      | Except.ok _ => Outcome.ret none)

/-- Embedding of `ListCommand.Run`. -/
def ListCommand.Run (w : World) (fuel : Nat) (l : ListCommand) : Res :=
  if CommandFlag.isFlagPassed l.fs "files" then
    ListCommand.finish
      (ListCommand.GetFileList w fuel "mimeType != \'application/vnd.google-apps.folder\'" 10)
  else if CommandFlag.isFlagPassed l.fs "folders" then
    ListCommand.finish
      (ListCommand.GetFileList w fuel "mimeType = \'application/vnd.google-apps.folder\'" 10)
  else if CommandFlag.isFlagPassed l.fs "all" then
    ListCommand.finish (ListCommand.GetFileList w fuel "" 10)
  else
    ([], Outcome.ret (some "you must pass a flag"))

/-- Embedding of `DownloadCommand`: its flag set; the fields `fileId` and `filename` are the
variables bound to the flags of these names. -/
structure DownloadCommand where
  fs : FlagSet
  deriving DecidableEq, Repr

/-- Embedding of `NewDownloadCommand`. -/
def NewDownloadCommand : DownloadCommand :=
  ⟨((NewFlagSet "download").StringVar "fileId" "").StringVar "filename" ""⟩

/-- The field `fileId`. -/
def DownloadCommand.fileId (d : DownloadCommand) : String := d.fs.stringValue "fileId"

/-- The field `filename`. -/
def DownloadCommand.filename (d : DownloadCommand) : String := d.fs.stringValue "filename"

/-- Embedding of `DownloadCommand.Name`. -/
def DownloadCommand.Name (d : DownloadCommand) : String := d.fs.Name

/-- Embedding of `DownloadCommand.Init`. -/
def DownloadCommand.Init (d : DownloadCommand) (args : List String) :
    Outcome (Option FlagError × DownloadCommand) :=
  (d.fs.Parse args).bind fun r => Outcome.ret (r.1, ⟨r.2⟩)

/-- The index expression `xs[i]` of Go for a signed index: `none` is the run-time panic. -/
def index {α : Type} (xs : List α) (i : Int) : Option α :=
  if i < 0 then none else xs.get? i.toNat

/-- Embedding of `DownloadCommand.Run`. -/
def DownloadCommand.Run (w : World) (d : DownloadCommand) : Res :=
  if !(CommandFlag.isStringFlagSet d.fs "fileId" && CommandFlag.isStringFlagSet d.fs "filename") then
    ([], Outcome.ret (some "you must set the value of the fileId and filename flags"))
  else
    match w.filesGet d.fileId with
    | Except.error err => ([Effect.filesGet d.fileId], Outcome.ret (some err))
    | Except.ok respFile =>
      let contentType := respFile.contentType
      match w.ExtensionsByType contentType with
      | Except.error err => ([Effect.filesGet d.fileId], Outcome.ret (some err))
      | Except.ok extensions =>
        match respFile.body with
        | Except.error err => ([Effect.filesGet d.fileId], Outcome.ret (some err))
        | Except.ok bytes =>
          match index extensions ((extensions.length : Int) - 1) with
          | none => ([Effect.filesGet d.fileId], Outcome.panic "index out of range [-1]")
          | some ext =>
            ([Effect.filesGet d.fileId, Effect.writeFile (d.filename ++ ext) bytes],
              Outcome.ret (w.WriteFile (d.filename ++ ext) bytes))

/-- Embedding of `UploadCommand`: its flag set; the field `filepath` is the variable bound to the
flag of that name. -/
structure UploadCommand where
  fs : FlagSet
  deriving DecidableEq, Repr

/-- Embedding of `NewUploadCommand`. -/
def NewUploadCommand : UploadCommand :=
  ⟨(NewFlagSet "upload").StringVar "filepath" ""⟩

/-- The field `filepath`. -/
def UploadCommand.filepath (upl : UploadCommand) : String := upl.fs.stringValue "filepath"

/-- Embedding of `UploadCommand.Name`. -/
def UploadCommand.Name (upl : UploadCommand) : String := upl.fs.Name

/-- Embedding of `UploadCommand.Init`. -/
def UploadCommand.Init (upl : UploadCommand) (args : List String) :
    Outcome (Option FlagError × UploadCommand) :=
  (upl.fs.Parse args).bind fun r => Outcome.ret (r.1, ⟨r.2⟩)

/-- Embedding of `UploadCommand.Run`. -/
def UploadCommand.Run (w : World) (upl : UploadCommand) : Res :=
  if !CommandFlag.isStringFlagSet upl.fs "filepath" then
    ([], Outcome.ret (some "you must set the value of the filepath flag"))
  else
    match w.Abs upl.filepath with
    | Except.error err => ([], Outcome.ret (some err))
    | Except.ok absPath =>
      let ext := Ext upl.filepath
      if ext == "" then
        ([], Outcome.ret (some "filename must have an extension"))
      else
        let driveFile : File := ⟨"", Base upl.filepath, w.TypeByExtension ext⟩
        match w.Open absPath with
        | some err => ([Effect.osOpen absPath], Outcome.ret (some err))
        | none =>
          match w.filesCreate driveFile absPath with
          | Except.error err =>
            ([Effect.osOpen absPath, Effect.filesCreate driveFile absPath], Outcome.ret (some err))
          | Except.ok _ =>
            ([Effect.osOpen absPath, Effect.filesCreate driveFile absPath], Outcome.ret none)

/-- The interface `Runner` with its three implementations. -/
inductive Runner where
  | list (l : ListCommand)
  | download (d : DownloadCommand)
  | upload (upl : UploadCommand)
  deriving DecidableEq, Repr

/-- The method `Name` of a `Runner`. -/
def Runner.Name : Runner → String
  | Runner.list l => l.Name
  | Runner.download d => d.Name
  | Runner.upload upl => upl.Name

/-- The method `Init` of a `Runner`: the error of the parse and the command afterwards. -/
def Runner.Init (cmd : Runner) (args : List String) : Outcome (Option FlagError × Runner) :=
  match cmd with
  | Runner.list l => (l.Init args).bind fun r => Outcome.ret (r.1, Runner.list r.2)
  | Runner.download d => (d.Init args).bind fun r => Outcome.ret (r.1, Runner.download r.2)
  | Runner.upload upl => (upl.Init args).bind fun r => Outcome.ret (r.1, Runner.upload r.2)

/-- The method `Run` of a `Runner`. -/
def Runner.Run (w : World) (fuel : Nat) : Runner → Res
  | Runner.list l => l.Run w fuel
  | Runner.download d => d.Run w
  | Runner.upload upl => upl.Run w

/-- The slice `cmds` of `root`. -/
def cmds : List Runner :=
  [Runner.list NewListCommand, Runner.download NewDownloadCommand, Runner.upload NewUploadCommand]

/-- The loop `for _, cmd := range cmds` of `root` with what follows it; `osArgs` is `os.Args`. -/
def root.loop (w : World) (fuel : Nat) (osArgs : List String) (subcommand : String) :
    List Runner → Res
  | [] => ([], Outcome.ret (some ("unknown subcommand: " ++ subcommand)))
  | cmd :: rest =>
    if cmd.Name == subcommand then
      match cmd.Init (osArgs.drop 2) with
      | Outcome.ret (some _, _) =>
        ([], Outcome.ret (some ("failed to parse arguments for subcommand: " ++ subcommand)))
      | Outcome.ret (none, cmd1) => cmd1.Run w fuel
      | Outcome.fatal msg => ([], Outcome.fatal msg)
      | Outcome.panic msg => ([], Outcome.panic msg)
      | Outcome.hang => ([], Outcome.hang)
    else root.loop w fuel osArgs subcommand rest

/-- Embedding of `root(args, service)`; `osArgs` is the process-wide `os.Args`, which `root` reads
for the name of the subcommand and for its arguments. -/
def root (w : World) (fuel : Nat) (osArgs : List String) (args : List String) : Res :=
  if args.length < 1 then
    ([], Outcome.ret (some "you must pass a sub-command"))
  else
    match osArgs.get? 1 with
    | none => ([], Outcome.panic "index out of range [1]")
    | some subcommand => root.loop w fuel osArgs subcommand cmds

/-! ## A paginated backend -/

/-- The page token the `k`-th list request (counted from 0) carries when the pages `ps` are
fetched in order: empty for the first request, the continuation token of the page before
otherwise. -/
def expectedToken (ps : List FileList) (k : Nat) : String :=
  if k = 0 then ""
  else
    match ps[k - 1]? with
    | some p => p.NextPageToken
    | none => ""

/-- The `k`-th list request (counted from 0) when the pages `ps` are fetched in order. -/
def listRequest (query : String) (pageSize : Int) (ps : List FileList) (k : Nat) : ListCall :=
  ⟨query, pageSize, expectedToken ps k⟩

/-- A Drive service that holds the pages `ps`: it answers the `k`-th list request with the
`k`-th page when the request carries the continuation token of the page before, and with an
error otherwise or when the pages are used up. -/
def pagedBackend (ps : List FileList) (hist : List ListCall) (call : ListCall) :
    Except String FileList :=
  match ps[hist.length]? with
  | none => Except.error "no more pages"
  | some p =>
    if call.pageToken == expectedToken ps hist.length then Except.ok p
    else Except.error "unknown page token"

/-! ## Concrete worlds and inputs -/

/-- A world in which nothing is there: no token file, no callback, and every remote call and
every lookup fails or is empty; files can be opened and written. -/
def quietWorld : World where
  rand := List.replicate 16 0
  callbacks := []
  Exchange := fun _ => Except.error "no token endpoint"
  readFile := fun _ => Except.error "no such file or directory"
  Decode := fun _ => Except.error "unexpected end of JSON input"
  OpenFile := fun _ => none
  Encode := fun _ _ => none
  filesList := fun _ _ => Except.error "service unavailable"
  filesGet := fun _ => Except.error "file not found"
  ExtensionsByType := fun _ => Except.ok []
  TypeByExtension := fun _ => ""
  WriteFile := fun _ _ => none
  Abs := fun p => Except.ok ("/home/user/" ++ p)
  Open := fun _ => none
  filesCreate := fun _ _ => Except.error "service unavailable"

/-- A world whose Drive service holds the pages `ps`. -/
def pagedWorld (ps : List FileList) : World :=
  { quietWorld with filesList := pagedBackend ps }

/-- A world in which the working directory cannot be determined, so `filepath.Abs` fails on a
relative path. -/
def noCwdWorld : World :=
  { quietWorld with Abs := fun _ => Except.error "getwd: no such file or directory" }

/-- The upload command after parsing `--filepath README`. -/
def readmeUpload : UploadCommand :=
  ⟨⟨"upload", [⟨"filepath", "README", false⟩], ["filepath"]⟩⟩

/-- The state of the flag set of the upload command at any time: one string flag `filepath`,
which is the only flag that can have been set. -/
def UploadInv (fs : FlagSet) : Prop :=
  ∃ v, fs.formal = [⟨"filepath", v, false⟩] ∧ (fs.actual = [] ∨ fs.actual = ["filepath"])

/-- The file with the given number, as a page entry. -/
def exampleFile (n : Nat) : File := ⟨toString n, "file" ++ toString n, ""⟩

/-- A first page of ten files with a continuation token and a second page of three files
without one. -/
def examplePages : List FileList :=
  [⟨(List.range 10).map exampleFile, "t1"⟩, ⟨(List.range 3).map (fun n => exampleFile (10 + n)), ""⟩]


/-- The download command after parsing `--fileId abc`: the flag `filename` was not passed. -/
def onlyFileId : DownloadCommand :=
  ⟨⟨"download", [⟨"fileId", "abc", false⟩, ⟨"filename", "", false⟩], ["fileId"]⟩⟩

/-- The download command after parsing `--fileId abc --filename out`. -/
def fileIdAndName : DownloadCommand :=
  ⟨⟨"download", [⟨"fileId", "abc", false⟩, ⟨"filename", "out", false⟩], ["fileId", "filename"]⟩⟩

/-- A world whose Drive service has a PDF file of four bytes under the id `abc`, and whose MIME
table knows the extension of PDF files. -/
def pdfWorld : World :=
  { quietWorld with
    filesGet := fun fileId =>
      if fileId == "abc" then Except.ok ⟨"application/pdf", Except.ok [37, 80, 68, 70]⟩
      else Except.error "file not found"
    ExtensionsByType := fun typ =>
      if typ == "application/pdf" then Except.ok [".pdf"] else Except.ok [] }

/-- A world whose Drive service has a file under the id `abc` with a content type for which
the MIME table has no extension: `mime.ExtensionsByType` then returns an empty list and no
error. -/
def noExtensionWorld : World :=
  { quietWorld with
    filesGet := fun fileId =>
      if fileId == "abc" then Except.ok ⟨"application/x-unregistered", Except.ok [1, 2, 3]⟩
      else Except.error "file not found"
    ExtensionsByType := fun _ => Except.ok [] }

/-- The token the token endpoint issues in `fullDiskWorld`. -/
def issuedToken : Token := ⟨"access", "Bearer", "refresh", "2026-01-01T00:00:00Z"⟩

/-- A world without a token file, in which the browser calls back with the right state and the
code `4/abc`, the token endpoint issues a token, and the token file can be created but not
written because the disk is full. -/
def fullDiskWorld : World :=
  { quietWorld with
    callbacks := [⟨[("state", "AAAAAAAAAAAAAAAAAAAAAA=="), ("code", "4/abc")]⟩]
    Exchange := fun code =>
      if code == "4/abc" then Except.ok issuedToken else Except.error "invalid_grant"
    Encode := fun _ _ => some "write token.json: no space left on device" }

/-! # Theorems -/

/-! ## The callback listener -/

/-- A key that no pair of the form carries has the empty string as its form value. -/
theorem FormValue_absent (r : Request) (key : String) (h : ∀ kv ∈ r.Form, kv.1 ≠ key) :
    r.FormValue key = "" := by
  have hnone : r.Form.find? (fun kv => kv.1 == key) = none := by
    rw [List.find?_eq_none]
    intro kv hkv
    simpa using h kv hkv
  simp [Request.FormValue, hnone]

/-- C1: when the `state` form value differs from the expected state, the handler answers with
`http.Error(w, "Invalid oauth state", 500)` and does nothing else: nothing is sent on the
channel and the status is 500, whatever the `code` form value is. -/
theorem oauthGoogleCallback_state_mismatch (s : String) (r : Request)
    (h : r.FormValue "state" ≠ s) :
    oauthGoogleCallback s r = [Effect.httpError "Invalid oauth state" 500] ∧
      Effect.sent (oauthGoogleCallback s r) = [] ∧
      Effect.status (oauthGoogleCallback s r) = some 500 := by
  have hrun : oauthGoogleCallback s r = [Effect.httpError "Invalid oauth state" 500] := by
    simp [oauthGoogleCallback, h]
  rw [hrun]
  exact ⟨rfl, rfl, rfl⟩

theorem oauthGoogleCallback_state_mismatch_witness :
    Request.FormValue ⟨[("state", "wrong"), ("code", "XYZ")]⟩ "state" ≠ "abc123" ∧
      oauthGoogleCallback "abc123" ⟨[("state", "wrong"), ("code", "XYZ")]⟩
        = [Effect.httpError "Invalid oauth state" 500] ∧
      Effect.sent (oauthGoogleCallback "abc123" ⟨[("state", "wrong"), ("code", "XYZ")]⟩) = [] ∧
      Effect.status (oauthGoogleCallback "abc123" ⟨[("state", "wrong"), ("code", "XYZ")]⟩)
        = some 500 :=
  ⟨by decide, oauthGoogleCallback_state_mismatch "abc123" ⟨[("state", "wrong"), ("code", "XYZ")]⟩
    (by decide)⟩

/-- C2: when the `state` form value equals the expected state and the `code` form value `c` is
not empty, the handler writes the success page, flushes, and then sends `c` on the channel, once
and as its last step; the receive of `getTokenFromWeb` then yields `c`, whatever requests
follow. -/
theorem oauthGoogleCallback_delivers_code (s c : String) (r : Request)
    (hs : r.FormValue "state" = s) (hc : r.FormValue "code" = c) (hne : c ≠ "") :
    oauthGoogleCallback s r =
        [Effect.write "<h1>Successful authentication!</h1>", Effect.flush, Effect.send c] ∧
      Effect.sent (oauthGoogleCallback s r) = [c] ∧
      ∀ rs, receive s (r :: rs) = some c := by
  have hrun : oauthGoogleCallback s r =
      [Effect.write "<h1>Successful authentication!</h1>", Effect.flush, Effect.send c] := by
    simp [oauthGoogleCallback, hs, hc, hne]
  refine ⟨hrun, ?_, ?_⟩
  · rw [hrun]; rfl
  · intro rs
    simp [receive, hrun, Effect.sent]

theorem oauthGoogleCallback_delivers_code_witness :
    oauthGoogleCallback "abc123" ⟨[("state", "abc123"), ("code", "XYZ")]⟩ =
        [Effect.write "<h1>Successful authentication!</h1>", Effect.flush, Effect.send "XYZ"] ∧
      Effect.sent (oauthGoogleCallback "abc123" ⟨[("state", "abc123"), ("code", "XYZ")]⟩)
        = ["XYZ"] ∧
      ∀ rs, receive "abc123" (⟨[("state", "abc123"), ("code", "XYZ")]⟩ :: rs) = some "XYZ" :=
  oauthGoogleCallback_delivers_code "abc123" "XYZ" ⟨[("state", "abc123"), ("code", "XYZ")]⟩
    (by decide) (by decide) (by decide)

/-- C3: when the `state` form value equals the expected state and the `code` form value is
absent or empty, the handler answers with `http.Error(w, "No code has been received!", 500)`
and does nothing else: nothing is sent on the channel and the status is 500. -/
theorem oauthGoogleCallback_no_code (s : String) (r : Request)
    (hs : r.FormValue "state" = s)
    (hc : (∀ kv ∈ r.Form, kv.1 ≠ "code") ∨ r.FormValue "code" = "") :
    oauthGoogleCallback s r = [Effect.httpError "No code has been received!" 500] ∧
      Effect.sent (oauthGoogleCallback s r) = [] ∧
      Effect.status (oauthGoogleCallback s r) = some 500 := by
  have hcode : r.FormValue "code" = "" := by
    rcases hc with h | h
    · exact FormValue_absent r "code" h
    · exact h
  have hrun : oauthGoogleCallback s r = [Effect.httpError "No code has been received!" 500] := by
    simp [oauthGoogleCallback, hs, hcode]
  rw [hrun]
  exact ⟨rfl, rfl, rfl⟩

theorem oauthGoogleCallback_no_code_witness :
    oauthGoogleCallback "abc123" ⟨[("state", "abc123")]⟩
        = [Effect.httpError "No code has been received!" 500] ∧
      Effect.sent (oauthGoogleCallback "abc123" ⟨[("state", "abc123")]⟩) = [] ∧
      Effect.status (oauthGoogleCallback "abc123" ⟨[("state", "abc123")]⟩) = some 500 :=
  oauthGoogleCallback_no_code "abc123" ⟨[("state", "abc123")]⟩ (by decide)
    (Or.inl (by decide))

/-! ## The OAuth state -/

theorem decSym_encSym_fin : ∀ i : Fin 64, decSym (encSym i.val) = some i.val := by decide

theorem encSym_ne_pad_fin : ∀ i : Fin 64, encSym i.val ≠ padChar := by decide

theorem encSym_urlSafe_fin : ∀ i : Fin 64, urlSafeChar (encSym i.val) = true := by decide

/-- Decoding a symbol of the alphabet gives back its position. -/
theorem decSym_encSym (n : Nat) : decSym (encSym (n % 64)) = some (n % 64) :=
  decSym_encSym_fin ⟨n % 64, Nat.mod_lt _ (by decide)⟩

/-- No symbol of the alphabet is the padding character. -/
theorem encSym_ne_pad (n : Nat) : encSym (n % 64) ≠ padChar :=
  encSym_ne_pad_fin ⟨n % 64, Nat.mod_lt _ (by decide)⟩

/-- Every symbol of the alphabet is URL-safe. -/
theorem encSym_urlSafe (n : Nat) : urlSafeChar (encSym (n % 64)) = true :=
  encSym_urlSafe_fin ⟨n % 64, Nat.mod_lt _ (by decide)⟩

theorem padChar_urlSafe : urlSafeChar padChar = true := by decide

/-- Decoding undoes encoding, for byte lists of every length. -/
theorem base64Decode_encode_aux : ∀ (n : Nat) (b : List Nat), b.length ≤ n →
    (∀ x ∈ b, x < 256) → base64Decode (base64Encode b) = some b := by
  intro n
  induction n using Nat.strong_induction_on with
  | _ n ih =>
    intro b hlen hb
    match b, hlen, hb with
    | [], _, _ => simp [base64Encode, base64Decode]
    | [b0], _, hb =>
      have h0 : b0 < 256 := hb b0 (by simp)
      simp only [base64Encode, base64Decode, decSym_encSym, encSym_ne_pad]
      simp
      omega
    | [b0, b1], _, hb =>
      have h0 : b0 < 256 := hb b0 (by simp)
      have h1 : b1 < 256 := hb b1 (by simp)
      simp only [base64Encode, base64Decode, decSym_encSym, encSym_ne_pad]
      simp
      omega
    | b0 :: b1 :: b2 :: rest, hlen, hb =>
      have h0 : b0 < 256 := hb b0 (by simp)
      have h1 : b1 < 256 := hb b1 (by simp)
      have h2 : b2 < 256 := hb b2 (by simp)
      have hrest : base64Decode (base64Encode rest) = some rest :=
        ih rest.length (by simp at hlen; omega) rest (le_refl _)
          (fun x hx => hb x (by simp [hx]))
      simp only [base64Encode, base64Decode, decSym_encSym, encSym_ne_pad, hrest]
      simp
      omega

theorem base64Decode_encode (b : List Nat) (hb : ∀ x ∈ b, x < 256) :
    base64Decode (base64Encode b) = some b :=
  base64Decode_encode_aux b.length b (le_refl _) hb

/-- The encoding has four symbols for every three bytes, rounded up. -/
theorem base64Encode_length : ∀ (n : Nat) (b : List Nat), b.length ≤ n →
    (base64Encode b).length = 4 * ((b.length + 2) / 3) := by
  intro n
  induction n using Nat.strong_induction_on with
  | _ n ih =>
    intro b hlen
    match b, hlen with
    | [], _ => simp [base64Encode]
    | [b0], _ => simp [base64Encode]
    | [b0, b1], _ => simp [base64Encode]
    | b0 :: b1 :: b2 :: rest, hlen =>
      have hrest := ih rest.length (by simp at hlen; omega) rest (le_refl _)
      simp only [base64Encode, List.length_cons, hrest]
      omega

/-- The encoding holds URL-safe characters only. -/
theorem base64Encode_urlSafe : ∀ (n : Nat) (b : List Nat), b.length ≤ n →
    ∀ c ∈ base64Encode b, urlSafeChar c = true := by
  intro n
  induction n using Nat.strong_induction_on with
  | _ n ih =>
    intro b hlen
    match b, hlen with
    | [], _ => simp [base64Encode]
    | [b0], _ =>
      intro c hc
      simp only [base64Encode, List.mem_cons, List.mem_singleton, List.not_mem_nil, or_false] at hc
      rcases hc with h | h | h | h <;> subst h <;>
        first | exact encSym_urlSafe _ | exact padChar_urlSafe
    | [b0, b1], _ =>
      intro c hc
      simp only [base64Encode, List.mem_cons, List.mem_singleton, List.not_mem_nil, or_false] at hc
      rcases hc with h | h | h | h <;> subst h <;>
        first | exact encSym_urlSafe _ | exact padChar_urlSafe
    | b0 :: b1 :: b2 :: rest, hlen =>
      have hrest := ih rest.length (by simp at hlen; omega) rest (le_refl _)
      intro c hc
      simp only [base64Encode, List.mem_cons] at hc
      rcases hc with h | h | h | h | h
      · subst h; exact encSym_urlSafe _
      · subst h; exact encSym_urlSafe _
      · subst h; exact encSym_urlSafe _
      · subst h; exact encSym_urlSafe _
      · exact hrest c h

/-- C9: for every 16-byte sequence `b` from the random source, `generateStateOauthCookie` gives
a string of 24 characters, all of them among `A-Z`, `a-z`, `0-9`, `-`, `_` and `=`, which the
URL-safe base64 decoder maps back to `b`; so two byte sequences with the same state string are
equal. -/
theorem generateStateOauthCookie_base64 (b : List Nat) (hlen : b.length = 16)
    (hb : ∀ x ∈ b, x < 256) :
    (generateStateOauthCookie b).length = 24 ∧
      (∀ c ∈ (generateStateOauthCookie b).toList, urlSafeChar c = true) ∧
      DecodeString (generateStateOauthCookie b) = some b ∧
      (Option.map List.length (DecodeString (generateStateOauthCookie b)) = some 16) ∧
      ∀ b1 : List Nat, b1.length = 16 → (∀ x ∈ b1, x < 256) →
        generateStateOauthCookie b1 = generateStateOauthCookie b → b1 = b := by
  have hdec : DecodeString (generateStateOauthCookie b) = some b := by
    simp [DecodeString, generateStateOauthCookie, EncodeToString, base64Decode_encode b hb]
  refine ⟨?_, ?_, hdec, ?_, ?_⟩
  · simp [generateStateOauthCookie, EncodeToString, String.length,
      base64Encode_length b.length b (le_refl _), hlen]
  · intro c hc
    exact base64Encode_urlSafe b.length b (le_refl _) c
      (by simpa [generateStateOauthCookie, EncodeToString] using hc)
  · rw [hdec]; simp [hlen]
  · intro b1 _ hb1 heq
    have h1 : DecodeString (generateStateOauthCookie b1) = some b1 := by
      simp [DecodeString, generateStateOauthCookie, EncodeToString, base64Decode_encode b1 hb1]
    rw [heq, hdec] at h1
    exact (Option.some.inj h1).symm

theorem generateStateOauthCookie_base64_witness :
    generateStateOauthCookie [0, 1, 2, 3, 4, 5, 6, 7, 8, 9, 10, 11, 12, 13, 14, 255]
        = "AAECAwQFBgcICQoLDA0O_w==" ∧
      (generateStateOauthCookie [0, 1, 2, 3, 4, 5, 6, 7, 8, 9, 10, 11, 12, 13, 14, 255]).length
        = 24 ∧
      DecodeString (generateStateOauthCookie [0, 1, 2, 3, 4, 5, 6, 7, 8, 9, 10, 11, 12, 13, 14, 255])
        = some [0, 1, 2, 3, 4, 5, 6, 7, 8, 9, 10, 11, 12, 13, 14, 255] :=
  have h := generateStateOauthCookie_base64 [0, 1, 2, 3, 4, 5, 6, 7, 8, 9, 10, 11, 12, 13, 14, 255]
    (by decide) (by decide)
  ⟨by decide, h.1, h.2.2.1⟩

/-! ## Pagination -/

/-- The loop of `GetFileList` against a service that serves the pages `ps`: entered after `k`
pages, it makes the remaining requests and returns the files gathered so far followed by the
files of the remaining pages. -/
theorem GetFileList_loop_pages (w : World) (ps : List FileList) (query : String) (pageSize : Int)
    (hserve : ∀ k (hk : k < ps.length),
      w.filesList ((List.range k).map (listRequest query pageSize ps))
        (listRequest query pageSize ps k) = Except.ok ps[k])
    (htok : ∀ i p, ps[i]? = some p → (p.NextPageToken = "" ↔ i + 1 = ps.length)) :
    ∀ (n k fuel : Nat) (resp : Option FileList) (files : List File) (hist : List ListCall),
      ps.length - k = n → k ≤ ps.length →
      hist = (List.range k).map (listRequest query pageSize ps) →
      (k = 0 → resp = none ∧ ps ≠ []) → (0 < k → resp = ps[k - 1]?) → n < fuel →
      ListCommand.GetFileList.loop w query pageSize fuel resp files hist =
        ((List.range ps.length).map (listRequest query pageSize ps),
          Outcome.ret (Except.ok (files ++ (ps.drop k).flatMap (fun p => p.Files)))) := by
  intro n
  induction n with
  | zero =>
    intro k fuel resp files hist hn hk hhist h0 hpos hfuel
    have hkeq : k = ps.length := by omega
    have hkpos : 0 < k := by
      rcases Nat.eq_zero_or_pos k with h | h
      · have := (h0 h).2
        have : ps.length ≠ 0 := by simpa using this
        omega
      · exact h
    obtain ⟨fuel, rfl⟩ : ∃ f, fuel = f + 1 := ⟨fuel - 1, by omega⟩
    have hlt : k - 1 < ps.length := by omega
    have hget : ps[k - 1]? = some ps[k - 1] := List.getElem?_eq_getElem hlt
    have hempty : (ps[k - 1]).NextPageToken = "" := (htok _ _ hget).2 (by omega)
    have hresp : resp = some ps[k - 1] := by rw [hpos hkpos, hget]
    subst hresp
    have hd : ps.drop k = [] := by rw [hkeq]; simp
    have hr : (List.range ps.length).map (listRequest query pageSize ps)
        = (List.range k).map (listRequest query pageSize ps) := by rw [hkeq]
    rw [hhist, hd, hr]
    simp [ListCommand.GetFileList.loop, hempty]
  | succ n ih =>
    intro k fuel resp files hist hn hk hhist h0 hpos hfuel
    obtain ⟨fuel, rfl⟩ : ∃ f, fuel = f + 1 := ⟨fuel - 1, by omega⟩
    have hlt : k < ps.length := by omega
    have hget : ps[k]? = some ps[k] := List.getElem?_eq_getElem hlt
    have hdrop : ps.drop k = ps[k] :: ps.drop (k + 1) := List.drop_eq_getElem_cons hlt
    have hback : w.filesList hist ⟨query, pageSize, expectedToken ps k⟩ = Except.ok ps[k] := by
      rw [hhist]; exact hserve k hlt
    have hrec := ih (k + 1) fuel (some ps[k]) (files ++ (ps[k]).Files)
      (hist ++ [⟨query, pageSize, expectedToken ps k⟩]) (by omega) (by omega)
      (by rw [hhist, List.range_succ, List.map_append]; rfl)
      (by intro h; omega) (by intro _; simp [hget]) (by omega)
    rcases Nat.eq_zero_or_pos k with h | h
    · have hresp : resp = none := (h0 h).1
      subst hresp
      have he : expectedToken ps k = "" := by simp [expectedToken, h]
      rw [he] at hback hrec
      unfold ListCommand.GetFileList.loop
      simp only [hback]
      rw [hrec, hdrop]
      simp only [List.flatMap_cons, List.append_assoc]
    · have hlt1 : k - 1 < ps.length := by omega
      have hget1 : ps[k - 1]? = some ps[k - 1] := List.getElem?_eq_getElem hlt1
      have hne : (ps[k - 1]).NextPageToken ≠ "" := by
        intro hc
        have := (htok _ _ hget1).1 hc
        omega
      have hresp : resp = some ps[k - 1] := by rw [hpos h, hget1]
      subst hresp
      have hk0 : k ≠ 0 := by omega
      have he : expectedToken ps k = (ps[k - 1]).NextPageToken := by
        simp [expectedToken, hk0, hget1]
      rw [he] at hback hrec
      unfold ListCommand.GetFileList.loop
      simp only [beq_iff_eq, hne, if_false, hback]
      rw [hrec, hdrop]
      simp only [List.flatMap_cons, List.append_assoc]

/-- The paged backend serves its pages to the requests of an in-order fetch. -/
theorem pagedBackend_serves (ps : List FileList) (query : String) (pageSize : Int) (k : Nat)
    (hk : k < ps.length) :
    pagedBackend ps ((List.range k).map (listRequest query pageSize ps))
      (listRequest query pageSize ps k) = Except.ok ps[k] := by
  simp [pagedBackend, listRequest, List.getElem?_eq_getElem hk]

/-- The length of the concatenation of the pages is the sum of the page sizes. -/
theorem length_flatMap_Files (ps : List FileList) :
    (ps.flatMap (fun p => p.Files)).length = (ps.map (fun p => p.Files.length)).sum := by
  induction ps with
  | nil => rfl
  | cons p ps ih => simp [List.flatMap_cons, ih]

/-- C4: against a Drive service that serves the non-empty page sequence `ps`, where exactly the
last page has an empty continuation token and every request of the in-order fetch is answered
with its page, `GetFileList` (with enough fuel for `ps.length` rounds and the exit) makes exactly
`ps.length` requests, the first with an empty page token and the `k`-th with the token of the
page before, and returns the concatenation of the file lists in page order, whose length is the
sum of the page sizes. -/
theorem GetFileList_pages (w : World) (ps : List FileList) (query : String) (pageSize : Int)
    (fuel : Nat) (hne : ps ≠ [])
    (htok : ∀ i p, ps[i]? = some p → (p.NextPageToken = "" ↔ i + 1 = ps.length))
    (hserve : ∀ k (hk : k < ps.length),
      w.filesList ((List.range k).map (listRequest query pageSize ps))
        (listRequest query pageSize ps k) = Except.ok ps[k])
    (hfuel : ps.length < fuel) :
    ListCommand.GetFileList w fuel query pageSize =
        ((List.range ps.length).map (listRequest query pageSize ps),
          Outcome.ret (Except.ok (ps.flatMap (fun p => p.Files)))) ∧
      (ListCommand.GetFileList w fuel query pageSize).1.length = ps.length ∧
      (∀ k, k < ps.length →
        ((ListCommand.GetFileList w fuel query pageSize).1[k]?).map (fun c => c.pageToken) =
          some (if k = 0 then "" else
            match ps[k - 1]? with
            | some p => p.NextPageToken
            | none => "")) ∧
      (ps.flatMap (fun p => p.Files)).length = (ps.map (fun p => p.Files.length)).sum := by
  have h := GetFileList_loop_pages w ps query pageSize hserve htok ps.length 0 fuel none [] []
    (by omega) (by omega) (by simp) (by intro _; exact ⟨rfl, hne⟩) (by intro h; omega) hfuel
  have hrun : ListCommand.GetFileList w fuel query pageSize =
      ((List.range ps.length).map (listRequest query pageSize ps),
        Outcome.ret (Except.ok (ps.flatMap (fun p => p.Files)))) := by
    unfold ListCommand.GetFileList
    rw [h]
    simp
  refine ⟨hrun, ?_, ?_, length_flatMap_Files ps⟩
  · rw [hrun]; simp
  · intro k hk
    rw [hrun]
    simp [List.getElem?_eq_getElem, hk, listRequest, expectedToken]

theorem GetFileList_pages_witness :
    ListCommand.GetFileList (pagedWorld examplePages) 3 "q" 10 =
        ([⟨"q", 10, ""⟩, ⟨"q", 10, "t1"⟩],
          Outcome.ret (Except.ok ((List.range 13).map exampleFile))) ∧
      ((List.range 13).map exampleFile).length = 13 := by
  have h := GetFileList_pages (pagedWorld examplePages) examplePages "q" 10 3 (by decide)
    (by
      intro i p hp
      match i, hp with
      | 0, hp => simp [examplePages] at hp; subst hp; simp [examplePages]
      | 1, hp => simp [examplePages] at hp; subst hp; simp [examplePages]
      | i + 2, hp => simp [examplePages] at hp)
    (fun k hk => pagedBackend_serves examplePages "q" 10 k hk) (by decide)
  refine ⟨?_, by decide⟩
  rw [h.1]
  decide

/-! ## Parsing and dispatch -/

/-- A round of the parser that sees a flag consumes at least one argument. -/
theorem parseOne_seen_lt (fs : FlagSet) (args : List String)
    (h : (parseOne fs args).seen = true) : (parseOne fs args).args.length < args.length := by
  revert h
  unfold parseOne
  split
  · simp
  · dsimp only
    repeat' split
    all_goals simp
    all_goals omega

/-- With more fuel than arguments the loop of the parser returns. -/
theorem parseLoop_returns : ∀ (fuel : Nat) (fs : FlagSet) (args : List String),
    args.length < fuel → ∃ r, parseLoop fuel fs args = Outcome.ret r := by
  intro fuel
  induction fuel with
  | zero => intro fs args h; omega
  | succ fuel ih =>
    intro fs args h
    unfold parseLoop
    dsimp only
    by_cases hs : (parseOne fs args).seen = true
    · rw [if_pos hs]
      exact ih _ _ (by have := parseOne_seen_lt fs args hs; omega)
    · rw [if_neg hs]
      exact ⟨_, rfl⟩

/-- The parser `FlagSet.Parse` returns on every argument list. -/
theorem Parse_returns (fs : FlagSet) (args : List String) :
    ∃ r, fs.Parse args = Outcome.ret r :=
  parseLoop_returns _ fs args (Nat.lt_succ_self _)

/-- The method `Init` returns on every argument list, for each of the three commands. -/
theorem Runner_Init_returns (cmd : Runner) (args : List String) :
    ∃ r, cmd.Init args = Outcome.ret r := by
  cases cmd with
  | list l =>
    obtain ⟨r, hr⟩ := Parse_returns l.fs args
    exact ⟨_, by simp [Runner.Init, ListCommand.Init, hr, Outcome.bind]; rfl⟩
  | download d =>
    obtain ⟨r, hr⟩ := Parse_returns d.fs args
    exact ⟨_, by simp [Runner.Init, DownloadCommand.Init, hr, Outcome.bind]; rfl⟩
  | upload upl =>
    obtain ⟨r, hr⟩ := Parse_returns upl.fs args
    exact ⟨_, by simp [Runner.Init, UploadCommand.Init, hr, Outcome.bind]; rfl⟩

/-- The loop of `root` on a name that is none of the three command names. -/
theorem root_loop_unknown (w : World) (fuel : Nat) (osArgs : List String) (name : String)
    (h : name ∉ ["list", "download", "upload"]) :
    root.loop w fuel osArgs name cmds =
      ([], Outcome.ret (some ("unknown subcommand: " ++ name))) := by
  simp only [List.mem_cons, List.mem_singleton, List.not_mem_nil, or_false, not_or] at h
  obtain ⟨h1, h2, h3⟩ := h
  have e1 : ("list" == name) = false := by simpa using Ne.symm h1
  have e2 : ("download" == name) = false := by simpa using Ne.symm h2
  have e3 : ("upload" == name) = false := by simpa using Ne.symm h3
  simp [cmds, root.loop, Runner.Name, ListCommand.Name, DownloadCommand.Name, UploadCommand.Name,
    NewListCommand, NewDownloadCommand, NewUploadCommand, FlagSet.Name, NewFlagSet,
    FlagSet.BoolVar, FlagSet.StringVar, e1, e2, e3, h1, h2, h3, Ne.symm h1, Ne.symm h2, Ne.symm h3]

/-- The loop of `root` on the name of one of the three commands stops at that command:
it is initialised with the arguments after the name, and run unless the parse fails. -/
theorem root_loop_known (w : World) (fuel : Nat) (osArgs : List String) (cmd : Runner)
    (h : cmd ∈ cmds) :
    ∃ err cmd1, cmd.Init (osArgs.drop 2) = Outcome.ret (err, cmd1) ∧
      root.loop w fuel osArgs cmd.Name cmds =
        match err with
        | some _ =>
          ([], Outcome.ret (some ("failed to parse arguments for subcommand: " ++ cmd.Name)))
        | none => cmd1.Run w fuel := by
  obtain ⟨⟨err, cmd1⟩, hinit⟩ := Runner_Init_returns cmd (osArgs.drop 2)
  refine ⟨err, cmd1, hinit, ?_⟩
  simp only [cmds, List.mem_cons, List.mem_singleton, List.not_mem_nil, or_false] at h
  have e1 : (Runner.Name (Runner.list NewListCommand)
      == Runner.Name (Runner.download NewDownloadCommand)) = false := by decide
  have e2 : (Runner.Name (Runner.list NewListCommand)
      == Runner.Name (Runner.upload NewUploadCommand)) = false := by decide
  have e3 : (Runner.Name (Runner.download NewDownloadCommand)
      == Runner.Name (Runner.upload NewUploadCommand)) = false := by decide
  rcases h with h | h | h <;> subst h <;> cases err <;>
    simp [cmds, root.loop, e1, e2, e3, hinit]

/-- The argument list after the program name determines the first entries of `os.Args`. -/
theorem osArgs_of_drop (osArgs : List String) (name : String) (rest : List String)
    (h : name :: rest = osArgs.drop 1) :
    osArgs.get? 1 = some name ∧ osArgs.drop 2 = rest := by
  match osArgs, h with
  | [], h => simp at h
  | [_], h => simp at h
  | _ :: n :: r, h =>
    simp only [List.drop_succ_cons, List.drop_zero, List.cons.injEq] at h
    obtain ⟨h1, h2⟩ := h
    subst h1 h2
    simp

/-- C5: with `args` the process arguments after the program name, `root` returns
`you must pass a sub-command` for an empty argument list; returns `unknown subcommand: <name>`
with no effect when the first argument is none of `list`, `download`, `upload`; and when the
first argument is the name of one of the three commands, that command is initialised with the
remaining arguments, and `root` returns the parse-failure error with no effect if the parse
fails and the result of running the initialised command otherwise. -/
theorem root_dispatch (w : World) (fuel : Nat) (osArgs args : List String)
    (hargs : args = osArgs.drop 1) :
    cmds.map Runner.Name = ["list", "download", "upload"] ∧
      (args = [] →
        root w fuel osArgs args = ([], Outcome.ret (some "you must pass a sub-command"))) ∧
      (∀ name rest, args = name :: rest → name ∉ ["list", "download", "upload"] →
        root w fuel osArgs args = ([], Outcome.ret (some ("unknown subcommand: " ++ name)))) ∧
      (∀ cmd ∈ cmds, ∀ rest, args = cmd.Name :: rest →
        ∃ err cmd1, cmd.Init rest = Outcome.ret (err, cmd1) ∧
          root w fuel osArgs args =
            match err with
            | some _ =>
              ([], Outcome.ret (some ("failed to parse arguments for subcommand: " ++ cmd.Name)))
            | none => cmd1.Run w fuel) := by
  refine ⟨by decide, ?_, ?_, ?_⟩
  · intro h
    simp [root, h]
  · intro name rest h hname
    obtain ⟨h1, _⟩ := osArgs_of_drop osArgs name rest (by rw [← hargs, h])
    simp only [root, h, h1]
    simpa using root_loop_unknown w fuel osArgs name hname
  · intro cmd hcmd rest h
    obtain ⟨h1, h2⟩ := osArgs_of_drop osArgs cmd.Name rest (by rw [← hargs, h])
    obtain ⟨err, cmd1, hinit, hloop⟩ := root_loop_known w fuel osArgs cmd hcmd
    rw [h2] at hinit
    refine ⟨err, cmd1, hinit, ?_⟩
    simp only [root, h, h1]
    simpa using hloop

theorem root_dispatch_witness :
    ["remove", "x"] = List.drop 1 ["gdrive-manager", "remove", "x"] ∧
      root (pagedWorld []) 1 ["gdrive-manager", "remove", "x"] ["remove", "x"]
        = ([], Outcome.ret (some "unknown subcommand: remove")) :=
  ⟨rfl, (root_dispatch (pagedWorld []) 1 ["gdrive-manager", "remove", "x"] ["remove", "x"]
    rfl).2.2.1 "remove" ["x"] rfl (by decide)⟩

/-! ## The upload command -/

/-- Setting a defined flag of the upload flag set keeps its shape. -/
theorem UploadInv_set (fs : FlagSet) (name value : String) (flag : Flag)
    (hinv : UploadInv fs) (hl : fs.Lookup name = some flag) :
    UploadInv ((fs.assign name value).markSet name) := by
  obtain ⟨v, hf, ha⟩ := hinv
  have hname : name = "filepath" := by
    simp only [FlagSet.Lookup, hf, List.find?_cons, List.find?_nil] at hl
    by_cases h : ("filepath" == name) = true
    · exact (beq_iff_eq.mp h).symm
    · simp [h] at hl
  subst hname
  refine ⟨value, ?_, ?_⟩
  · simp [FlagSet.markSet, FlagSet.assign, hf]
  · rcases ha with ha | ha <;> simp [FlagSet.markSet, FlagSet.assign, ha, insertName]

/-- One round of the parser keeps the shape of the upload flag set. -/
theorem UploadInv_parseOne (fs : FlagSet) (args : List String) (hinv : UploadInv fs) :
    UploadInv (parseOne fs args).fs := by
  unfold parseOne
  split
  · exact hinv
  · dsimp only
    repeat' split
    all_goals first
      | exact hinv
      | exact UploadInv_set _ _ _ _ hinv ‹_›

/-- The parser keeps the shape of the upload flag set. -/
theorem UploadInv_parseLoop : ∀ (fuel : Nat) (fs : FlagSet) (args : List String)
    (r : Option FlagError × FlagSet), UploadInv fs →
    parseLoop fuel fs args = Outcome.ret r → UploadInv r.2 := by
  intro fuel
  induction fuel with
  | zero => intro fs args r _ h; simp [parseLoop] at h
  | succ fuel ih =>
    intro fs args r hinv h
    unfold parseLoop at h
    dsimp only at h
    by_cases hs : (parseOne fs args).seen = true
    · rw [if_pos hs] at h
      exact ih _ _ r (UploadInv_parseOne fs args hinv) h
    · rw [if_neg hs] at h
      have hr : r = ((parseOne fs args).err, (parseOne fs args).fs) :=
        (Outcome.ret.inj h).symm
      rw [hr]
      exact UploadInv_parseOne fs args hinv

/-- After `Init`, the flag set of the upload command has its shape. -/
theorem UploadInv_Init (args : List String) (err : Option FlagError) (upl : UploadCommand)
    (h : NewUploadCommand.Init args = Outcome.ret (err, upl)) : UploadInv upl.fs := by
  unfold UploadCommand.Init FlagSet.Parse at h
  cases hp : parseLoop (args.length + 1) NewUploadCommand.fs args with
  | ret r =>
    rw [hp] at h
    simp only [Outcome.bind, Outcome.ret.injEq, Prod.mk.injEq] at h
    have := UploadInv_parseLoop _ _ _ r ⟨"", rfl, Or.inl rfl⟩ hp
    rw [← h.2]
    exact this
  | fatal m => rw [hp] at h; simp [Outcome.bind] at h
  | panic m => rw [hp] at h; simp [Outcome.bind] at h
  | hang => rw [hp] at h; simp [Outcome.bind] at h

/-- A string has length zero exactly when it is the empty string. -/
theorem length_eq_zero_iff (s : String) : s.length = 0 ↔ s = "" := by
  cases s with
  | mk l =>
    cases l with
    | nil => exact ⟨fun _ => rfl, fun _ => rfl⟩
    | cons c cs =>
      constructor
      · intro h; simp [String.length] at h
      · intro h; exact absurd (congrArg String.data h) (by simp)

/-- On the upload flag set, `isStringFlagSet` tells whether `filepath` was set to a non-empty
value. -/
theorem isStringFlagSet_upload (fs : FlagSet) (name : String) (hinv : UploadInv fs) :
    CommandFlag.isStringFlagSet fs name = true ↔
      ("filepath" ∈ fs.actual ∧ fs.stringValue "filepath" ≠ "") := by
  obtain ⟨v, hf, ha⟩ := hinv
  have hv : (0 < v.length) ↔ v ≠ "" := by
    rw [Nat.pos_iff_ne_zero, ne_eq, ne_eq, length_eq_zero_iff]
  rcases ha with ha | ha
  · simp [CommandFlag.isStringFlagSet, FlagSet.Visit, ha]
  · simp [CommandFlag.isStringFlagSet, FlagSet.Visit, FlagSet.stringValue, FlagSet.Lookup,
      ha, hf, hv]

/-- C7, as amended: after `Init` from any argument list, when `--filepath` is missing or empty,
or the path has no extension, `UploadCommand.Run` has no effect (it neither opens the file nor
issues the upload request) and returns an error: `you must set the value of the filepath flag`
when the flag is missing or empty; otherwise the error of `filepath.Abs` when that call fails,
and `filename must have an extension` when it succeeds. -/
theorem UploadCommand_Run_rejects (w : World) (args : List String) (upl : UploadCommand)
    (hinit : NewUploadCommand.Init args = Outcome.ret (none, upl))
    (h : ("filepath" ∉ upl.fs.actual ∨ upl.filepath = "") ∨ Ext upl.filepath = "") :
    (UploadCommand.Run w upl).1 = [] ∧
      (UploadCommand.Run w upl).2 = Outcome.ret (some (
        if "filepath" ∉ upl.fs.actual ∨ upl.filepath = "" then
          "you must set the value of the filepath flag"
        else
          match w.Abs upl.filepath with
          | Except.error err => err
          | Except.ok _ => "filename must have an extension")) := by
  have hinv := UploadInv_Init args none upl hinit
  have hset := isStringFlagSet_upload upl.fs "filepath" hinv
  by_cases hm : "filepath" ∉ upl.fs.actual ∨ upl.filepath = ""
  · have hfalse : CommandFlag.isStringFlagSet upl.fs "filepath" = false := by
      rw [Bool.eq_false_iff]
      intro hc
      have := hset.mp hc
      rcases hm with hm | hm
      · exact hm this.1
      · exact this.2 hm
    simp [UploadCommand.Run, hfalse, hm]
  · have hext : Ext upl.filepath = "" := by
      rcases h with h | h
      · exact absurd h hm
      · exact h
    have htrue : CommandFlag.isStringFlagSet upl.fs "filepath" = true := by
      rw [hset]
      rw [not_or, not_not] at hm
      exact ⟨hm.1, hm.2⟩
    simp only [UploadCommand.Run, htrue, hext, if_neg hm]
    cases w.Abs upl.filepath <;> simp

theorem UploadCommand_Run_rejects_witness :
    UploadCommand.Run quietWorld readmeUpload =
      ([], Outcome.ret (some "filename must have an extension")) := by
  have h := UploadCommand_Run_rejects quietWorld ["--filepath", "README"] readmeUpload
    (by decide) (Or.inr (by decide))
  exact Prod.ext h.1 (h.2.trans (by decide))

/-- C7, as stated, fails: after `upload --filepath README` in a world where `filepath.Abs`
fails, the path has no extension and `Run` returns the error of `filepath.Abs`, which is neither
of the two usage errors. -/
theorem UploadCommand_Run_abs_error :
    NewUploadCommand.Init ["--filepath", "README"] = Outcome.ret (none, readmeUpload) ∧
      Ext readmeUpload.filepath = "" ∧
      UploadCommand.Run noCwdWorld readmeUpload =
        ([], Outcome.ret (some "getwd: no such file or directory")) ∧
      ¬ ((UploadCommand.Run noCwdWorld readmeUpload).2 =
            Outcome.ret (some "you must set the value of the filepath flag") ∨
          (UploadCommand.Run noCwdWorld readmeUpload).2 =
            Outcome.ret (some "filename must have an extension")) := by
  decide

/-! ## The download command -/

/-- The answer of `isStringFlagSet` does not depend on the flag name it is asked about. -/
theorem isStringFlagSet_ignores_name (fs : FlagSet) (n m : String) :
    CommandFlag.isStringFlagSet fs n = CommandFlag.isStringFlagSet fs m := rfl

/-- C6, at the failing input `download --fileId abc`: the flag `filename` was not passed and
its value is empty, yet both calls of `isStringFlagSet` answer true, and `Run` requests the file
and writes it to a name made of the extension alone instead of returning the usage error. -/
theorem DownloadCommand_Run_without_filename :
    NewDownloadCommand.Init ["--fileId", "abc"] = Outcome.ret (none, onlyFileId) ∧
      CommandFlag.isFlagPassed onlyFileId.fs "filename" = false ∧
      onlyFileId.filename = "" ∧
      CommandFlag.isStringFlagSet onlyFileId.fs "filename" = true ∧
      DownloadCommand.Run pdfWorld onlyFileId =
        ([Effect.filesGet "abc", Effect.writeFile ".pdf" [37, 80, 68, 70]], Outcome.ret none) := by
  decide

/-- With a non-empty extension list `Run` writes the body to the file name followed by the last
listed extension. -/
theorem DownloadCommand_Run_writes (w : World) (d : DownloadCommand) (respFile : Response)
    (bytes : List Nat) (exts : List String) (ext : String)
    (hset : (CommandFlag.isStringFlagSet d.fs "fileId"
      && CommandFlag.isStringFlagSet d.fs "filename") = true)
    (hget : w.filesGet d.fileId = Except.ok respFile)
    (hext : w.ExtensionsByType respFile.contentType = Except.ok (exts ++ [ext]))
    (hbody : respFile.body = Except.ok bytes) :
    DownloadCommand.Run w d =
      ([Effect.filesGet d.fileId, Effect.writeFile (d.filename ++ ext) bytes],
        Outcome.ret (w.WriteFile (d.filename ++ ext) bytes)) := by
  have hidx : index (exts ++ [ext]) (((exts ++ [ext]).length : Int) - 1) = some ext := by
    have h1 : ((exts ++ [ext]).length : Int) - 1 = (exts.length : Int) := by
      simp
    rw [h1]
    simp [index]
  simp only [DownloadCommand.Run, hset, hget, hext, hbody, hidx]
  simp

/-- C10, at the failing input: after `download --fileId abc --filename out`, a successful
response whose content type has no extension in the MIME table makes `Run` index the empty
extension list at `-1`, which is a run-time panic; no file is written. -/
theorem DownloadCommand_Run_no_extension :
    NewDownloadCommand.Init ["--fileId", "abc", "--filename", "out"]
        = Outcome.ret (none, fileIdAndName) ∧
      noExtensionWorld.ExtensionsByType "application/x-unregistered" = Except.ok [] ∧
      DownloadCommand.Run noExtensionWorld fileIdAndName =
        ([Effect.filesGet "abc"], Outcome.panic "index out of range [-1]") := by
  decide

/-! ## The token cache -/

/-- A failure to open the token file ends the process. -/
theorem saveToken_open_error_fatal (w : World) (path err : String) (token : Token)
    (h : w.OpenFile path = some err) :
    saveToken w path token = Outcome.fatal ("Unable to cache oauth token: " ++ err) := by
  simp [saveToken, h]

/-- Once the token file is open, `saveToken` returns normally whatever `Encode` answers. -/
theorem saveToken_returns_after_open (w : World) (path : String) (token : Token)
    (h : w.OpenFile path = none) : saveToken w path token = Outcome.ret () := by
  simp [saveToken, h]

/-- C8, at the failing input: the token file can be opened but writing the token fails; then
`saveToken` returns normally and `getClient` goes on to build the client. -/
theorem saveToken_ignores_write_error :
    fullDiskWorld.OpenFile "token.json" = none ∧
      fullDiskWorld.Encode "token.json" issuedToken
        = some "write token.json: no space left on device" ∧
      saveToken fullDiskWorld "token.json" issuedToken = Outcome.ret () ∧
      getTokenFromWeb fullDiskWorld = Outcome.ret issuedToken ∧
      getClient fullDiskWorld = Outcome.ret ⟨issuedToken⟩ := by
  decide

end GDrive
